import Mathlib

/-!
Verification of the debounced matrix-keypad scanner (`src/src/Keypad.cpp`).

The embedding models the `Keypad` class state as a Lean structure and each
member function as a pure state-passing function.  The hardware clock
`millis()` is passed explicitly as `now`; all `millis()` calls inside one
member-function call read the same instant.  Unsigned 32-bit subtraction
`millis() - t` is modelled by `timeDiff`, arithmetic modulo `2^32`.
The raw bitmap produced by `scanKeys` (hardware I/O) is passed in as a list
of per-row bit masks, exactly the shape of the `bitMap` member.
-/

/-- The four debounce states from `Keypad.h` (used throughout `Keypad.cpp`). -/
inductive KeyState where
  | IDLE
  | PRESSED
  | HOLD
  | RELEASED
deriving DecidableEq, Repr

open KeyState

/-- Modelled from the spec: `Keypad.h` is not under `src/`; the registry
capacity `KEYPAD_LIST_MAX` is "a small constant, e.g. 10" (spec §3). -/
def KEYPAD_LIST_MAX : Nat := 10

/-- Modelled from the spec: `Keypad.h` is not under `src/`; the empty-slot
sentinel character `KEYPAD_NO_KEY` ("an entry with character = none is an
empty slot", spec §3).  The concrete character is the NUL character. -/
def KEYPAD_NO_KEY : Char := Char.ofNat 0

/-- Modelled from the spec: `Keypad.h` is not under `src/`; after the
active-low inversion in `readRow`, a closed contact reads as `true`
(`KEYPAD_CLOSED`) and an open one as `false` (`KEYPAD_OPEN`). -/
def KEYPAD_CLOSED : Bool := true

/-- Modelled from the spec: the open-contact raw value, negation of
`KEYPAD_CLOSED`. -/
def KEYPAD_OPEN : Bool := false

/-- One slot of the `key[KEYPAD_LIST_MAX]` array.  Modelled from the spec
(`Key.h` is not under `src/`) together with the field usage visible in
`Keypad.cpp`: character, linear code (with `-1` sentinel), debounce state and
the `stateChanged` flag. -/
structure Key where
  kchar : Char
  kcode : Int
  kstate : KeyState
  stateChanged : Bool
deriving DecidableEq, Repr

/-- Modelled from the spec: a freshly constructed slot is empty — sentinel
character, code `-1`, `IDLE`, no pending change (spec §3 lifecycle). -/
def defaultKey : Key :=
  { kchar := KEYPAD_NO_KEY, kcode := -1, kstate := IDLE, stateChanged := false }

instance : Inhabited Key := ⟨defaultKey⟩

/-- An event emitted by `transitionTo` through one of the two listeners. -/
inductive Event where
  | charOnly (c : Char)
  | charState (c : Char) (s : KeyState)
deriving DecidableEq, Repr

/-- The mutable state of one `Keypad` object (`Keypad.cpp`).  Pin identifiers
are omitted: they only feed the hardware shims (`pin_write`/`pin_read`),
whose result is the bitmap passed explicitly to `getKeys`/`updateList`.
The two function-pointer listeners are modelled by registration flags; the
calls they would receive are returned as an `Event` trace. -/
structure Keypad where
  rows : Nat
  columns : Nat
  keymap : List Char
  key : List Key
  startTime : Nat
  debounceTime : Nat
  holdTime : Nat
  holdTimer : Nat
  hasEventListener : Bool
  hasStatedEventListener : Bool
deriving DecidableEq, Repr

/-- Unsigned 32-bit wraparound subtraction `now - last`, as computed on the
`uint32_t` values returned by `millis()`. -/
def timeDiff (now last : Nat) : Nat :=
  ((now % 2 ^ 32) + 2 ^ 32 - last % 2 ^ 32) % 2 ^ 32

/-- The constructor `Keypad::Keypad` followed by `begin(keymap)`:
`setDebounceTime(10)`, `setHoldTime(500)`, no listeners, `startTime = 0`,
all slots default-initialised. -/
def mkKeypad (numRows numCols : Nat) (userKeymap : List Char) : Keypad :=
  { rows := numRows
    columns := numCols
    keymap := userKeymap
    key := List.replicate KEYPAD_LIST_MAX defaultKey
    startTime := 0
    debounceTime := 10
    holdTime := 500
    holdTimer := 0
    hasEventListener := false
    hasStatedEventListener := false }

/-- Function `Keypad::setDebounceTime`: `debounce<1 ? debounceTime=1 : debounceTime=debounce`. -/
def setDebounceTime (kp : Keypad) (debounce : Nat) : Keypad :=
  if debounce < 1 then { kp with debounceTime := 1 } else { kp with debounceTime := debounce }

/-- Function `Keypad::setHoldTime`. -/
def setHoldTime (kp : Keypad) (hold : Nat) : Keypad :=
  { kp with holdTime := hold }

/-- Function `Keypad::addEventListener` (registration flag of the char-only listener). -/
def addEventListener (kp : Keypad) (registered : Bool) : Keypad :=
  { kp with hasEventListener := registered }

/-- Function `Keypad::addStatedEventListener` (registration flag of the stated listener). -/
def addStatedEventListener (kp : Keypad) (registered : Bool) : Keypad :=
  { kp with hasStatedEventListener := registered }

/-- Function `Keypad::transitionTo(idx, nextState)`: store the new state, raise
`stateChanged`, then invoke the char-only listener and the stated listener
(in that order), each only when registered. -/
def transitionTo (kp : Keypad) (idx : Nat) (nextState : KeyState) : Keypad × List Event :=
  let k := kp.key.getD idx defaultKey
  let kp' := { kp with key := kp.key.set idx { k with kstate := nextState, stateChanged := true } }
  let evs := (if kp.hasEventListener then [Event.charOnly k.kchar] else [])
          ++ (if kp.hasStatedEventListener then [Event.charState k.kchar nextState] else [])
  (kp', evs)

/-- Function `Keypad::nextKeyState(idx, button)`: clear `stateChanged`, then the
4-state switch.  `IDLE` + closed anchors the (shared) `holdTimer` to `now`;
`PRESSED` escalates to `HOLD` when `millis() - holdTimer > holdTime`,
otherwise releases on open; `HOLD` releases on open; `RELEASED` always
returns to `IDLE`. -/
def nextKeyState (kp : Keypad) (idx : Nat) (button : Bool) (now : Nat) : Keypad × List Event :=
  let k0 := kp.key.getD idx defaultKey
  let kp0 := { kp with key := kp.key.set idx { k0 with stateChanged := false } }
  match k0.kstate with
  | IDLE =>
      if button = KEYPAD_CLOSED then
        let (kp1, evs) := transitionTo kp0 idx PRESSED
        ({ kp1 with holdTimer := now }, evs)
      else (kp0, [])
  | PRESSED =>
      if timeDiff now kp.holdTimer > kp.holdTime then transitionTo kp0 idx HOLD
      else if button = KEYPAD_OPEN then transitionTo kp0 idx RELEASED
      else (kp0, [])
  | HOLD =>
      if button = KEYPAD_OPEN then transitionTo kp0 idx RELEASED
      else (kp0, [])
  | RELEASED =>
      transitionTo kp0 idx IDLE

/-- One slot of the cleanup loop in `Keypad::updateList`: an `IDLE` slot is
cleared (`kchar → KEYPAD_NO_KEY`, `kcode → -1`, `stateChanged → false`). -/
def cleanKey (k : Key) : Key :=
  if k.kstate = IDLE then { k with kchar := KEYPAD_NO_KEY, kcode := -1, stateChanged := false }
  else k

/-- The cleanup pass of `Keypad::updateList` over all slots. -/
def cleanupKeys (keys : List Key) : List Key :=
  keys.map cleanKey

/-- The `emptyPos` search: first slot whose character is the empty sentinel
(`0xFF`, i.e. `none`, when there is none).  In the cleanup loop this check
runs after the slot has been cleared, so it is a search over the cleaned
list; the rescan after an allocation is the same search over the current
list. -/
def firstEmpty (keys : List Key) : Option Nat :=
  keys.findIdx? (fun k => k.kchar = KEYPAD_NO_KEY)

/-- Function `Keypad::findInList(byte keyCode)`: index of the first slot whose
`kcode` equals the scanned code, `none` (`-1` in C) when absent. -/
def findInList (keys : List Key) (keyCode : Nat) : Option Nat :=
  keys.findIdx? (fun k => k.kcode = (keyCode : Int))

/-- Macro `bitRead(bitMap[r], c)` of the scan bitmap. -/
def bitRead (bitMap : List Nat) (r c : Nat) : Bool :=
  Nat.testBit (bitMap.getD r 0) c

/-- Accumulator of the reconciliation loop of `Keypad::updateList`: the
keypad state (`key` array and `holdTimer` evolve), the current `emptyPos`
and the listener-call trace. -/
structure UpdAcc where
  kp : Keypad
  emptyPos : Option Nat
  events : List Event

/-- The body of the nested `(r, c)` loop of `Keypad::updateList`: feed a
tracked key its raw closure bit, or allocate the free slot for a closed
untracked key (then rescan for the next free slot), or drop the press. -/
def cellStep (bitMap : List Nat) (now : Nat) (acc : UpdAcc) (rc : Nat × Nat) : UpdAcc :=
  let button := bitRead bitMap rc.1 rc.2
  let keyCode := rc.1 * acc.kp.columns + rc.2
  let keyChar := acc.kp.keymap.getD keyCode KEYPAD_NO_KEY
  match findInList acc.kp.key keyCode with
  | some idx =>
      let (kp', evs) := nextKeyState acc.kp idx button now
      { kp := kp', emptyPos := acc.emptyPos, events := acc.events ++ evs }
  | none =>
      match acc.emptyPos, button with
      | some e, true =>
          let k := acc.kp.key.getD e defaultKey
          let kpAdd := { acc.kp with
            key := acc.kp.key.set e { k with kchar := keyChar, kcode := keyCode, kstate := IDLE } }
          let (kp', evs) := nextKeyState kpAdd e button now
          { kp := kp', emptyPos := firstEmpty kp'.key, events := acc.events ++ evs }
      | _, _ => acc

/-- The row-major cell order of the nested loops in `Keypad::updateList`. -/
def cellList (numRows numCols : Nat) : List (Nat × Nat) :=
  (List.range numRows).flatMap (fun r => (List.range numCols).map (fun c => (r, c)))

/-- Function `Keypad::updateList()`: cleanup pass, reconciliation pass over all cells
in row-major order, then report whether any slot has `stateChanged`.
Returns the new keypad state, the changed flag and the listener-call trace. -/
def updateList (kp : Keypad) (bitMap : List Nat) (now : Nat) : Keypad × Bool × List Event :=
  let kp1 := { kp with key := cleanupKeys kp.key }
  let e0 := firstEmpty kp1.key
  let acc := (cellList kp.rows kp.columns).foldl (cellStep bitMap now)
    { kp := kp1, emptyPos := e0, events := [] }
  (acc.kp, acc.kp.key.any (fun k => k.stateChanged), acc.events)

/-- Function `Keypad::getKeys()`: when `millis() - startTime > debounceTime`, run the
hardware scan (whose result is the `bitMap` argument) and `updateList`, and
record the new timestamp; otherwise do nothing and return `false`. -/
def getKeys (kp : Keypad) (bitMap : List Nat) (now : Nat) : Keypad × Bool × List Event :=
  if timeDiff now kp.startTime > kp.debounceTime then
    let u := updateList kp bitMap now
    ({ u.1 with startTime := now }, u.2.1, u.2.2)
  else (kp, false, [])

/-- Function `Keypad::getState()`: the state of slot 0. -/
def getState (kp : Keypad) : KeyState :=
  (kp.key.getD 0 defaultKey).kstate

/-- Function `Keypad::keyStateChanged()`: the `stateChanged` flag of slot 0. -/
def keyStateChanged (kp : Keypad) : Bool :=
  (kp.key.getD 0 defaultKey).stateChanged

/-- Function `Keypad::isPressed(keyChar)`: some slot holds the character in state
`PRESSED` with `stateChanged` raised. -/
def isPressed (kp : Keypad) (keyChar : Char) : Bool :=
  kp.key.any (fun k => k.kchar = keyChar && k.kstate = PRESSED && k.stateChanged)

/-- The state of slot `i`. -/
def keyStateAt (kp : Keypad) (i : Nat) : KeyState :=
  (kp.key.getD i defaultKey).kstate

/-- The registry states reachable from a freshly constructed keypad by any
sequence of configuration calls and scan/update cycles. -/
inductive Reachable : Keypad → Prop where
  | init (numRows numCols : Nat) (userKeymap : List Char) :
      Reachable (mkKeypad numRows numCols userKeymap)
  | poll (kp : Keypad) (bitMap : List Nat) (now : Nat) :
      Reachable kp → Reachable (getKeys kp bitMap now).1
  | debounce (kp : Keypad) (d : Nat) : Reachable kp → Reachable (setDebounceTime kp d)
  | hold (kp : Keypad) (h : Nat) : Reachable kp → Reachable (setHoldTime kp h)
  | listener (kp : Keypad) (b : Bool) : Reachable kp → Reachable (addEventListener kp b)
  | statedListener (kp : Keypad) (b : Bool) :
      Reachable kp → Reachable (addStatedEventListener kp b)

/-! ## General helper lemmas -/

theorem getD_set_self {α : Type} (l : List α) (i : Nat) (x d : α) (h : i < l.length) :
    (l.set i x).getD i d = x := by
  induction l generalizing i with
  | nil => simp at h
  | cons a t ih =>
    cases i with
    | zero => rfl
    | succ n => simpa using ih n (by simpa using h)

theorem getD_set_ne {α : Type} (l : List α) (i j : Nat) (x d : α) (h : i ≠ j) :
    (l.set i x).getD j d = l.getD j d := by
  induction l generalizing i j with
  | nil => rfl
  | cons a t ih =>
    cases i with
    | zero =>
      cases j with
      | zero => exact absurd rfl h
      | succ m => rfl
    | succ n =>
      cases j with
      | zero => rfl
      | succ m => simpa using ih n m (by omega)

theorem foldl_invariant {α β : Type} (I : β → Prop) (f : β → α → β) (l : List α) (b : β)
    (hb : I b) (hf : ∀ b a, a ∈ l → I b → I (f b a)) : I (l.foldl f b) := by
  induction l generalizing b with
  | nil => exact hb
  | cons a t ih =>
    exact ih (f b a) (hf b a (List.mem_cons_self a t) hb)
      (fun b x hx hI => hf b x (List.mem_cons_of_mem a hx) hI)

/-! ## C8: debounce clamping -/

/-- C8: for every argument `d`, `setDebounceTime` stores `max d 1` — values
below the floor of 1 are silently clamped to 1, values at or above it are
stored unchanged, and no error is raised (the function always returns a
keypad state). -/
theorem setDebounceTime_stores_max_floor (kp : Keypad) (d : Nat) :
    (setDebounceTime kp d).debounceTime = max d 1 := by
  unfold setDebounceTime
  split <;> simp <;> omega

/-! ## C1: the transition table -/

/-- C1: the per-key debounce transition of `nextKeyState` is exhaustive and
deterministic over every `(state, closed)` pair and follows the spec table:
IDLE+closed → PRESSED anchoring the hold timer to `now`, IDLE+open stays
IDLE with `stateChanged` false; PRESSED → HOLD when the elapsed time since
the hold anchor exceeds `holdTime`, else RELEASED when open, else PRESSED;
HOLD → RELEASED when open, else HOLD; RELEASED always → IDLE.  Moreover
PRESSED is only entered from IDLE and IDLE only from IDLE or RELEASED, so a
closed→open→closed run from IDLE re-enters PRESSED only via RELEASED then
IDLE, never skipping RELEASED. -/
theorem nextKeyState_follows_table (kp : Keypad) (i : Nat) (b : Bool) (now : Nat)
    (hi : i < kp.key.length) :
    (keyStateAt kp i = IDLE →
        keyStateAt (nextKeyState kp i b now).1 i = (if b then PRESSED else IDLE)
      ∧ (b = true → (nextKeyState kp i b now).1.holdTimer = now)
      ∧ (b = false → ((nextKeyState kp i b now).1.key.getD i defaultKey).stateChanged = false))
  ∧ (keyStateAt kp i = PRESSED →
        keyStateAt (nextKeyState kp i b now).1 i =
          (if timeDiff now kp.holdTimer > kp.holdTime then HOLD
           else if b then PRESSED else RELEASED))
  ∧ (keyStateAt kp i = HOLD →
        keyStateAt (nextKeyState kp i b now).1 i = (if b then HOLD else RELEASED))
  ∧ (keyStateAt kp i = RELEASED → keyStateAt (nextKeyState kp i b now).1 i = IDLE)
  ∧ (keyStateAt (nextKeyState kp i b now).1 i = PRESSED → keyStateAt kp i ≠ PRESSED →
        keyStateAt kp i = IDLE)
  ∧ (keyStateAt (nextKeyState kp i b now).1 i = IDLE → keyStateAt kp i ≠ IDLE →
        keyStateAt kp i = RELEASED) := by
  cases hk : (kp.key.getD i defaultKey).kstate <;>
    cases b <;>
      simp only [keyStateAt, nextKeyState, transitionTo, KEYPAD_CLOSED, KEYPAD_OPEN, hk] <;>
      simp [hk, List.getD_eq_getElem?_getD, List.getElem?_set_self, List.getElem?_set_ne,
        List.length_set, hi] <;>
      split <;>
        simp [List.getD_eq_getElem?_getD, List.getElem?_set_self, List.length_set, hi]

/-- Witness for C1 at a concrete keypad: slot 0 of a fresh 1×1 keypad is
IDLE, and feeding it a closed contact moves it to PRESSED. -/
theorem nextKeyState_follows_table_witness :
    keyStateAt (mkKeypad 1 1 [Char.ofNat 49]) 0 = IDLE ∧
    keyStateAt (nextKeyState (mkKeypad 1 1 [Char.ofNat 49]) 0 true 5).1 0 = PRESSED := by
  refine ⟨by decide, ?_⟩
  have h := (nextKeyState_follows_table (mkKeypad 1 1 [Char.ofNat 49]) 0 true 5
    (by decide)).1 (by decide)
  simpa using h.1

/-! ## Characterisation of the linear searches -/

theorem findIdx?_first {α : Type} (p : α → Bool) (l : List α) (i : Nat) (d : α)
    (hi : i < l.length) (hp : p (l.getD i d) = true)
    (hmin : ∀ j, j < i → p (l.getD j d) = false) :
    l.findIdx? p = some i := by
  induction l generalizing i with
  | nil => simp at hi
  | cons a t ih =>
    rw [List.findIdx?_cons]
    cases i with
    | zero => simpa using hp
    | succ n =>
      have h0 : p a = false := by simpa using hmin 0 (Nat.succ_pos n)
      rw [h0]
      simp only [List.findIdx?_succ]
      rw [ih n (by simpa using hi) (by simpa using hp)
        (fun j hj => by simpa using hmin (j+1) (by omega))]
      rfl

theorem findIdx?_some_spec {α : Type} (p : α → Bool) (l : List α) (i : Nat) (d : α)
    (h : l.findIdx? p = some i) :
    i < l.length ∧ p (l.getD i d) = true ∧ ∀ j, j < i → p (l.getD j d) = false := by
  induction l generalizing i with
  | nil => simp [List.findIdx?] at h
  | cons a t ih =>
    rw [List.findIdx?_cons] at h
    by_cases ha : p a = true
    · simp [ha] at h
      subst h
      exact ⟨by simp, by simpa using ha, fun j hj => by omega⟩
    · rw [eq_false_of_ne_true ha] at h
      simp only [List.findIdx?_succ] at h
      rcases Option.map_eq_some'.mp h with ⟨n, hn, rfl⟩
      obtain ⟨h1, h2, h3⟩ := ih n hn
      refine ⟨by simpa using h1, by simpa using h2, ?_⟩
      intro j hj
      cases j with
      | zero => simpa using eq_false_of_ne_true ha
      | succ m => simpa using h3 m (by omega)

/-! ## Shape lemmas for the state-machine step -/

theorem getD_set_self_or {α : Type} (l : List α) (i : Nat) (x d : α) :
    (l.set i x).getD i d = if i < l.length then x else d := by
  induction l generalizing i with
  | nil => cases i <;> simp
  | cons a t ih =>
    cases i with
    | zero => simp
    | succ n => simpa using ih n

theorem getD_of_length_le {α : Type} (l : List α) (i : Nat) (d : α) (h : l.length ≤ i) :
    l.getD i d = d := by
  induction l generalizing i with
  | nil => rfl
  | cons a t ih =>
    cases i with
    | zero => simp at h
    | succ n => simpa using ih n (by simpa using h)

/-- Relation between two keypad states: the second differs from the first at
most in slot `idx` (whose character and code are kept), in the shared
`holdTimer` and in the timestamp fields; geometry, keymap and every other
slot agree.  Both the `stateChanged`-clearing prologue of `nextKeyState` and
`transitionTo` produce states in this relation. -/
def SlotOnly (kp kp' : Keypad) (idx : Nat) : Prop :=
  kp'.rows = kp.rows ∧ kp'.columns = kp.columns ∧ kp'.keymap = kp.keymap ∧
  kp'.key.length = kp.key.length ∧
  (∀ j, j ≠ idx → kp'.key.getD j defaultKey = kp.key.getD j defaultKey) ∧
  (kp'.key.getD idx defaultKey).kchar = (kp.key.getD idx defaultKey).kchar ∧
  (kp'.key.getD idx defaultKey).kcode = (kp.key.getD idx defaultKey).kcode

theorem slotOnly_refl (kp : Keypad) (idx : Nat) : SlotOnly kp kp idx :=
  ⟨rfl, rfl, rfl, rfl, fun _ _ => rfl, rfl, rfl⟩

theorem slotOnly_trans {a b c : Keypad} {idx : Nat}
    (h1 : SlotOnly a b idx) (h2 : SlotOnly b c idx) : SlotOnly a c idx := by
  obtain ⟨r1, c1, m1, l1, o1, ch1, co1⟩ := h1
  obtain ⟨r2, c2, m2, l2, o2, ch2, co2⟩ := h2
  exact ⟨r2.trans r1, c2.trans c1, m2.trans m1, l2.trans l1,
    fun j hj => (o2 j hj).trans (o1 j hj), ch2.trans ch1, co2.trans co1⟩

theorem slotOnly_set (kp : Keypad) (idx : Nat) (k' : Key) (ht st dt : Nat)
    (hch : k'.kchar = (kp.key.getD idx defaultKey).kchar)
    (hco : k'.kcode = (kp.key.getD idx defaultKey).kcode) :
    SlotOnly kp
      { kp with key := kp.key.set idx k', holdTimer := ht, startTime := st,
                debounceTime := dt } idx := by
  refine ⟨rfl, rfl, rfl, by simp, fun j hj => ?_, ?_, ?_⟩
  · simpa using getD_set_ne kp.key idx j k' defaultKey (fun h => hj h.symm)
  · by_cases hidx : idx < kp.key.length
    · simp only [getD_set_self_or]
      simpa [hidx] using hch
    · rw [getD_set_self_or, getD_of_length_le _ _ _ (Nat.le_of_not_lt hidx)]
      simp [hidx]
  · by_cases hidx : idx < kp.key.length
    · simp only [getD_set_self_or]
      simpa [hidx] using hco
    · rw [getD_set_self_or, getD_of_length_le _ _ _ (Nat.le_of_not_lt hidx)]
      simp [hidx]

theorem transitionTo_slotOnly (kp : Keypad) (idx : Nat) (s : KeyState) :
    SlotOnly kp (transitionTo kp idx s).1 idx := by
  have h := slotOnly_set kp idx
    { kp.key.getD idx defaultKey with kstate := s, stateChanged := true }
    kp.holdTimer kp.startTime kp.debounceTime rfl rfl
  exact h

/-- One `nextKeyState` call only rewrites slot `idx` (keeping its character
and code) and possibly the shared `holdTimer`; the geometry, keymap and all
other slots are untouched. -/
theorem nextKeyState_slotOnly (kp : Keypad) (idx : Nat) (b : Bool) (now : Nat)
    (hidx : idx < kp.key.length) :
    SlotOnly kp (nextKeyState kp idx b now).1 idx := by
  unfold SlotOnly
  cases hk : (kp.key.getD idx defaultKey).kstate <;>
    cases b <;>
    simp only [nextKeyState, transitionTo, KEYPAD_CLOSED, KEYPAD_OPEN, hk, reduceIte] <;>
    (try split) <;>
    refine ⟨by trivial, by trivial, by trivial, by simp, fun j hj => by
        simp [List.set_set, List.getD_eq_getElem?_getD, List.getElem?_set_ne (Ne.symm hj)],
      by simp [List.set_set, List.getD_eq_getElem?_getD, List.getElem?_set_self,
        List.length_set, hidx],
      by simp [List.set_set, List.getD_eq_getElem?_getD, List.getElem?_set_self,
        List.length_set, hidx]⟩

theorem slotOnly_kcode_all {kp kp' : Keypad} {idx : Nat} (h : SlotOnly kp kp' idx) (j : Nat) :
    (kp'.key.getD j defaultKey).kcode = (kp.key.getD j defaultKey).kcode := by
  by_cases hj : j = idx
  · subst hj; exact h.2.2.2.2.2.2
  · rw [h.2.2.2.2.1 j hj]

theorem slotOnly_kchar_all {kp kp' : Keypad} {idx : Nat} (h : SlotOnly kp kp' idx) (j : Nat) :
    (kp'.key.getD j defaultKey).kchar = (kp.key.getD j defaultKey).kchar := by
  by_cases hj : j = idx
  · subst hj; exact h.2.2.2.2.2.1
  · rw [h.2.2.2.2.1 j hj]

theorem getD_mem {α : Type} (l : List α) (i : Nat) (d : α) (h : i < l.length) :
    l.getD i d ∈ l := by
  induction l generalizing i with
  | nil => simp at h
  | cons a t ih =>
    cases i with
    | zero => simp
    | succ n => exact List.mem_cons_of_mem a (by simpa using ih n (by simpa using h))

/-! ## The row-major cell enumeration -/

theorem cellList_map_code (R C : Nat) :
    (cellList R C).map (fun rc => rc.1 * C + rc.2) = List.range (R * C) := by
  induction R with
  | zero => simp [cellList]
  | succ n ih =>
    rw [cellList, List.range_succ, List.flatMap_append, List.map_append,
      show (List.range n).flatMap (fun r => (List.range C).map (fun c => (r, c)))
        = cellList n C from rfl, ih]
    simp only [List.flatMap_cons, List.flatMap_nil, List.append_nil, List.map_map]
    rw [Nat.succ_mul, List.range_add]
    congr 1

theorem mem_cellList {R C : Nat} {rc : Nat × Nat} :
    rc ∈ cellList R C ↔ rc.1 < R ∧ rc.2 < C := by
  simp only [cellList, List.mem_flatMap, List.mem_map, List.mem_range]
  constructor
  · rintro ⟨a, ha, c', hc', h⟩
    subst h
    exact ⟨ha, hc'⟩
  · rintro ⟨hr, hc⟩
    exact ⟨rc.1, hr, rc.2, hc, rfl⟩

theorem cellList_code_lt {R C : Nat} {rc : Nat × Nat} (h : rc ∈ cellList R C) :
    rc.1 * C + rc.2 < R * C := by
  have hm : rc.1 * C + rc.2 ∈ (cellList R C).map (fun rc => rc.1 * C + rc.2) :=
    List.mem_map_of_mem _ h
  rw [cellList_map_code] at hm
  simpa using hm

theorem cellList_split (R C r c : Nat) (hr : r < R) (hc : c < C) :
    ∃ A B, cellList R C = A ++ (r, c) :: B
      ∧ (∀ rc ∈ A, rc.1 * C + rc.2 ≠ r * C + c)
      ∧ (∀ rc ∈ B, rc.1 * C + rc.2 ≠ r * C + c) := by
  have hmem : (r, c) ∈ cellList R C := mem_cellList.mpr ⟨hr, hc⟩
  obtain ⟨A, B, hAB⟩ := List.append_of_mem hmem
  have hnd : ((cellList R C).map (fun rc => rc.1 * C + rc.2)).Nodup := by
    rw [cellList_map_code]; exact List.nodup_range (R * C)
  rw [hAB, List.map_append, List.map_cons, List.nodup_append, List.nodup_cons] at hnd
  refine ⟨A, B, hAB, ?_, ?_⟩
  · intro rc hrc heq
    have hmm : r * C + c ∈ A.map (fun rc => rc.1 * C + rc.2) := by
      rw [← heq]; exact List.mem_map_of_mem _ hrc
    exact hnd.2.2 hmm (List.mem_cons_self _ _)
  · intro rc hrc heq
    have hmm : r * C + c ∈ B.map (fun rc => rc.1 * C + rc.2) := by
      rw [← heq]; exact List.mem_map_of_mem _ hrc
    exact hnd.2.1.1 hmm

/-! ## Cleanup pass lemmas -/

theorem cleanKey_defaultKey : cleanKey defaultKey = defaultKey := by decide

theorem cleanup_getD (keys : List Key) (i : Nat) :
    (cleanupKeys keys).getD i defaultKey = cleanKey (keys.getD i defaultKey) := by
  have h := List.getD_map keys defaultKey (n := i) cleanKey
  rw [cleanKey_defaultKey] at h
  exact h

theorem cleanup_length (keys : List Key) : (cleanupKeys keys).length = keys.length := by
  simp [cleanupKeys]

theorem cleanKey_kcode (k : Key) :
    (cleanKey k).kcode = k.kcode ∨ (cleanKey k).kcode = -1 := by
  unfold cleanKey; split <;> simp

/-! ## Case analysis of one reconciliation-loop iteration -/

/-- The key written into the free slot when `updateList` registers a new
press: looked-up character, linear code, initial state `IDLE`. -/
def allocKey (acc : UpdAcc) (e : Nat) (rc : Nat × Nat) : Key :=
  { acc.kp.key.getD e defaultKey with
    kchar := acc.kp.keymap.getD (rc.1 * acc.kp.columns + rc.2) KEYPAD_NO_KEY,
    kcode := ((rc.1 * acc.kp.columns + rc.2 : Nat) : Int),
    kstate := IDLE }

/-- The keypad state right after the free slot has been overwritten with the
new press, before the immediate `nextKeyState` call. -/
def allocKp (acc : UpdAcc) (e : Nat) (rc : Nat × Nat) : Keypad :=
  { acc.kp with key := acc.kp.key.set e (allocKey acc e rc) }

theorem cellStep_eq (bm : List Nat) (now : Nat) (acc : UpdAcc) (rc : Nat × Nat) :
    (∃ idx, findInList acc.kp.key (rc.1 * acc.kp.columns + rc.2) = some idx ∧
        cellStep bm now acc rc =
          { kp := (nextKeyState acc.kp idx (bitRead bm rc.1 rc.2) now).1,
            emptyPos := acc.emptyPos,
            events := acc.events ++ (nextKeyState acc.kp idx (bitRead bm rc.1 rc.2) now).2 })
  ∨ (findInList acc.kp.key (rc.1 * acc.kp.columns + rc.2) = none ∧
      ∃ e, acc.emptyPos = some e ∧ bitRead bm rc.1 rc.2 = true ∧
        cellStep bm now acc rc =
          { kp := (nextKeyState (allocKp acc e rc) e true now).1,
            emptyPos := firstEmpty (nextKeyState (allocKp acc e rc) e true now).1.key,
            events := acc.events ++ (nextKeyState (allocKp acc e rc) e true now).2 })
  ∨ (findInList acc.kp.key (rc.1 * acc.kp.columns + rc.2) = none ∧
      (acc.emptyPos = none ∨ bitRead bm rc.1 rc.2 = false) ∧
      cellStep bm now acc rc = acc) := by
  rcases hfind : findInList acc.kp.key (rc.1 * acc.kp.columns + rc.2) with _ | idx
  · rcases he : acc.emptyPos with _ | e
    · refine Or.inr (Or.inr ⟨rfl, Or.inl rfl, ?_⟩)
      unfold cellStep
      simp only [hfind, he]
    · rcases hb : bitRead bm rc.1 rc.2 with _ | _
      · refine Or.inr (Or.inr ⟨rfl, Or.inr rfl, ?_⟩)
        unfold cellStep
        simp only [hfind, he, hb]
      · refine Or.inr (Or.inl ⟨rfl, e, rfl, rfl, ?_⟩)
        unfold cellStep
        simp only [hfind, he, hb, allocKp, allocKey]
  · refine Or.inl ⟨idx, rfl, ?_⟩
    unfold cellStep
    simp only [hfind]

/-! ## Well-formedness of the reconciliation accumulator -/

/-- A stored `emptyPos` is a valid slot index. -/
def EmptyPosOk (acc : UpdAcc) : Prop :=
  ∀ e, acc.emptyPos = some e → e < acc.kp.key.length

/-- Through the reconciliation loop the geometry, keymap and list length
never change and `emptyPos` stays in range. -/
def AccWf (kp0 : Keypad) (acc : UpdAcc) : Prop :=
  acc.kp.columns = kp0.columns ∧ acc.kp.keymap = kp0.keymap ∧
  acc.kp.key.length = kp0.key.length ∧ EmptyPosOk acc

theorem findInList_some_lt {keys : List Key} {c idx : Nat} (h : findInList keys c = some idx) :
    idx < keys.length := (findIdx?_some_spec _ _ _ defaultKey h).1

theorem firstEmpty_some_lt {keys : List Key} {e : Nat} (h : firstEmpty keys = some e) :
    e < keys.length := (findIdx?_some_spec _ _ _ defaultKey h).1

theorem cellStep_wf {kp0 : Keypad} (bm : List Nat) (now : Nat) (acc : UpdAcc) (rc : Nat × Nat)
    (h : AccWf kp0 acc) : AccWf kp0 (cellStep bm now acc rc) := by
  obtain ⟨hcols, hmap, hlen, hep⟩ := h
  rcases cellStep_eq bm now acc rc with ⟨idx, hfind, heq⟩ | ⟨hfind, e, he, hb, heq⟩ | ⟨_, _, heq⟩
  · rw [heq]
    have hso := nextKeyState_slotOnly acc.kp idx (bitRead bm rc.1 rc.2) now
      (findInList_some_lt hfind)
    refine ⟨hso.2.1.trans hcols, hso.2.2.1.trans hmap, hso.2.2.2.1.trans hlen, ?_⟩
    intro e' he'
    have h2 := hep e' he'
    rw [hso.2.2.2.1]
    exact h2
  · rw [heq]
    have hel : e < acc.kp.key.length := hep e he
    have hso := nextKeyState_slotOnly (allocKp acc e rc) e true now
      (by simpa [allocKp] using hel)
    have hcols2 : (allocKp acc e rc).columns = acc.kp.columns := rfl
    have hmap2 : (allocKp acc e rc).keymap = acc.kp.keymap := rfl
    have hlen2 : (allocKp acc e rc).key.length = acc.kp.key.length := by simp [allocKp]
    refine ⟨(hso.2.1.trans hcols2).trans hcols, (hso.2.2.1.trans hmap2).trans hmap,
      (hso.2.2.2.1.trans hlen2).trans hlen, ?_⟩
    intro e' he'
    exact firstEmpty_some_lt he'
  · rw [heq]; exact ⟨hcols, hmap, hlen, hep⟩

/-! ## C7: at most one entry per active code -/

/-- At most one slot holds any given active (nonnegative) key code: two
distinct slots with equal codes can only share the `-1` sentinel. -/
def DistinctActiveCodes (keys : List Key) : Prop :=
  ∀ i j, i < keys.length → j < keys.length → i ≠ j →
    (keys.getD i defaultKey).kcode = (keys.getD j defaultKey).kcode →
    (keys.getD i defaultKey).kcode = -1

theorem findInList_none {keys : List Key} {c : Nat} (h : findInList keys c = none) :
    ∀ j, j < keys.length → (keys.getD j defaultKey).kcode ≠ (c : Int) := by
  intro j hj
  have hm := List.findIdx?_eq_none_iff.mp h (keys.getD j defaultKey) (getD_mem _ _ _ hj)
  simpa using hm

theorem cleanup_distinct {keys : List Key} (h : DistinctActiveCodes keys) :
    DistinctActiveCodes (cleanupKeys keys) := by
  intro i j hi hj hne heq
  rw [cleanup_length] at hi hj
  rw [cleanup_getD] at heq ⊢
  rw [cleanup_getD] at heq
  rcases cleanKey_kcode (keys.getD i defaultKey) with h1 | h1
  · rcases cleanKey_kcode (keys.getD j defaultKey) with h2 | h2
    · rw [h1]
      exact h i j hi hj hne (by rw [← h1, ← h2]; exact heq)
    · rw [h1] at heq ⊢
      rw [h2] at heq
      exact heq
  · exact h1

theorem cellStep_distinct {kp0 : Keypad} (bm : List Nat) (now : Nat) (acc : UpdAcc)
    (rc : Nat × Nat) (hwf : AccWf kp0 acc) (h : DistinctActiveCodes acc.kp.key) :
    DistinctActiveCodes (cellStep bm now acc rc).kp.key := by
  rcases cellStep_eq bm now acc rc with ⟨idx, hfind, heq⟩ | ⟨hfind, e, he, hb, heq⟩ | ⟨_, _, heq⟩
  · rw [heq]
    have hso := nextKeyState_slotOnly acc.kp idx (bitRead bm rc.1 rc.2) now
      (findInList_some_lt hfind)
    intro i j hi hj hne heq2
    rw [hso.2.2.2.1] at hi hj
    rw [slotOnly_kcode_all hso i, slotOnly_kcode_all hso j] at heq2
    rw [slotOnly_kcode_all hso i]
    exact h i j hi hj hne heq2
  · rw [heq]
    have hel : e < acc.kp.key.length := hwf.2.2.2 e he
    have hso := nextKeyState_slotOnly (allocKp acc e rc) e true now
      (by simpa [allocKp] using hel)
    intro i j hi hj hne heq2
    have hleni : (allocKp acc e rc).key.length = acc.kp.key.length := by simp [allocKp]
    rw [hso.2.2.2.1, hleni] at hi hj
    rw [slotOnly_kcode_all hso i, slotOnly_kcode_all hso j] at heq2
    rw [slotOnly_kcode_all hso i]
    have hgi : ∀ m, m < acc.kp.key.length →
        ((allocKp acc e rc).key.getD m defaultKey).kcode =
          if m = e then ((rc.1 * acc.kp.columns + rc.2 : Nat) : Int)
          else (acc.kp.key.getD m defaultKey).kcode := by
      intro m hm
      by_cases hme : m = e
      · rw [if_pos hme, hme,
          show (allocKp acc e rc).key = acc.kp.key.set e (allocKey acc e rc) from rfl,
          getD_set_self_or]
        simp [hme ▸ hm, allocKey]
      · rw [if_neg hme,
          show (allocKp acc e rc).key = acc.kp.key.set e (allocKey acc e rc) from rfl,
          getD_set_ne _ _ _ _ _ (fun hh => hme hh.symm)]
    rw [hgi i hi, hgi j hj] at heq2
    rw [hgi i hi]
    by_cases hie : i = e
    · rw [if_pos hie] at heq2 ⊢
      rw [if_neg (fun hh => hne (hie.trans hh.symm))] at heq2
      exact absurd heq2.symm (findInList_none hfind j hj)
    · rw [if_neg hie] at heq2 ⊢
      by_cases hje : j = e
      · rw [if_pos hje] at heq2
        exact absurd heq2 (findInList_none hfind i hi)
      · rw [if_neg hje] at heq2
        exact h i j hi hj hne heq2
  · rw [heq]
    exact h

theorem updateList_fst (kp : Keypad) (bm : List Nat) (now : Nat) :
    (updateList kp bm now).1 =
      ((cellList kp.rows kp.columns).foldl (cellStep bm now)
        { kp := { kp with key := cleanupKeys kp.key },
          emptyPos := firstEmpty (cleanupKeys kp.key), events := [] }).kp := rfl

theorem updateList_distinct (kp : Keypad) (bm : List Nat) (now : Nat)
    (h : DistinctActiveCodes kp.key) :
    DistinctActiveCodes (updateList kp bm now).1.key ∧
    (updateList kp bm now).1.key.length = kp.key.length := by
  rw [updateList_fst]
  have hinv := foldl_invariant
    (fun acc => AccWf { kp with key := cleanupKeys kp.key } acc ∧
      DistinctActiveCodes acc.kp.key)
    (cellStep bm now) (cellList kp.rows kp.columns)
    { kp := { kp with key := cleanupKeys kp.key },
      emptyPos := firstEmpty (cleanupKeys kp.key), events := [] }
    ⟨⟨rfl, rfl, rfl, fun e he => firstEmpty_some_lt he⟩, cleanup_distinct h⟩
    (fun b a _ hI => ⟨cellStep_wf bm now b a hI.1, cellStep_distinct bm now b a hI.1 hI.2⟩)
  refine ⟨hinv.2, ?_⟩
  have hl := hinv.1.2.2.1
  simpa [cleanup_length] using hl

theorem getD_replicate_default (n i : Nat) (d : Key) :
    (List.replicate n d).getD i d = d := by
  induction n generalizing i with
  | zero => rfl
  | succ m ih =>
    cases i with
    | zero => rfl
    | succ k => exact ih k

/-- C7: for every registry state reachable from a freshly constructed keypad
by any sequence of configuration calls and scan/update cycles, at most one
list entry holds any given active key code: two distinct slots can share a
code only when it is the `-1` empty sentinel.  (`updateList` only allocates
a slot for a code after `findInList` has reported it absent, so a tracked
code is never allocated twice.) -/
theorem reachable_at_most_one_entry_per_code (kp : Keypad) (h : Reachable kp) :
    DistinctActiveCodes kp.key := by
  induction h with
  | init numRows numCols userKeymap =>
      intro i j hi hj hne heq
      simp only [mkKeypad] at heq ⊢
      rw [getD_replicate_default]
      rfl
  | poll kp bm now hr ih =>
      unfold getKeys
      split
      · exact (updateList_distinct kp bm now ih).1
      · exact ih
  | debounce kp d hr ih =>
      unfold setDebounceTime
      split
      · exact ih
      · exact ih
  | hold kp hh hr ih => exact ih
  | listener kp b hr ih => exact ih
  | statedListener kp b hr ih => exact ih

/-- Witness for C7: the registry reached by one poll of a fresh 1×1 keypad
with its only key closed satisfies the per-code uniqueness invariant. -/
theorem reachable_at_most_one_entry_per_code_witness :
    DistinctActiveCodes (getKeys (mkKeypad 1 1 [Char.ofNat 49]) [1] 11).1.key :=
  reachable_at_most_one_entry_per_code _
    (Reachable.poll _ [1] 11 (Reachable.init 1 1 [Char.ofNat 49]))

/-! ## C4: RELEASED is a single-cycle transit state -/

theorem firstEmpty_some_char {keys : List Key} {m : Nat} (h : firstEmpty keys = some m) :
    (keys.getD m defaultKey).kchar = KEYPAD_NO_KEY := by
  have hh := (findIdx?_some_spec _ _ _ defaultKey h).2.1
  simpa using hh

theorem findInList_some_code {keys : List Key} {c idx : Nat}
    (h : findInList keys c = some idx) :
    (keys.getD idx defaultKey).kcode = (c : Int) := by
  have hh := (findIdx?_some_spec _ _ _ defaultKey h).2.1
  simpa using hh

theorem nextKeyState_released_idle (kp : Keypad) (i : Nat) (b : Bool) (now : Nat)
    (hi : i < kp.key.length) (hst : (kp.key.getD i defaultKey).kstate = RELEASED) :
    ((nextKeyState kp i b now).1.key.getD i defaultKey).kstate = IDLE := by
  cases b <;>
    simp only [nextKeyState, transitionTo, KEYPAD_CLOSED, KEYPAD_OPEN, hst] <;>
    simp [List.set_set, List.getD_eq_getElem?_getD, List.getElem?_set_self,
      List.length_set, hi]

theorem allocKp_getD_ne (acc : UpdAcc) (e : Nat) (rc : Nat × Nat) (m : Nat) (hm : m ≠ e) :
    (allocKp acc e rc).key.getD m defaultKey = acc.kp.key.getD m defaultKey := by
  rw [show (allocKp acc e rc).key = acc.kp.key.set e (allocKey acc e rc) from rfl,
    getD_set_ne _ _ _ _ _ (fun hh => hm hh.symm)]

theorem allocKp_getD_self (acc : UpdAcc) (e : Nat) (rc : Nat × Nat)
    (he : e < acc.kp.key.length) :
    (allocKp acc e rc).key.getD e defaultKey = allocKey acc e rc := by
  rw [show (allocKp acc e rc).key = acc.kp.key.set e (allocKey acc e rc) from rfl,
    getD_set_self_or]
  simp [he]

/-- Invariant carried through the reconciliation loop as long as the cells
processed do not touch code `code`: slot `i` keeps the fixed value `k` and
`emptyPos` never points at slot `i`. -/
def EntryFixed (kp1 : Keypad) (i : Nat) (k : Key) (code : Nat) (acc : UpdAcc) : Prop :=
  AccWf kp1 acc
  ∧ acc.kp.key.getD i defaultKey = k
  ∧ (∀ j, j < i → (acc.kp.key.getD j defaultKey).kcode ≠ (code : Int))
  ∧ acc.emptyPos ≠ some i

theorem cellStep_entryFixed {kp1 : Keypad} {i : Nat} {k : Key} {code : Nat}
    (bm : List Nat) (now : Nat) (acc : UpdAcc) (rc : Nat × Nat)
    (hkchar : k.kchar ≠ KEYPAD_NO_KEY) (hkcode : k.kcode = (code : Int))
    (hrc : rc.1 * kp1.columns + rc.2 ≠ code)
    (h : EntryFixed kp1 i k code acc) :
    EntryFixed kp1 i k code (cellStep bm now acc rc) := by
  obtain ⟨hwf, hent, hfir, hep⟩ := h
  have hcols : acc.kp.columns = kp1.columns := hwf.1
  have hrc2 : rc.1 * acc.kp.columns + rc.2 ≠ code := by rw [hcols]; exact hrc
  rcases cellStep_eq bm now acc rc with ⟨idx, hfind, heq⟩ | ⟨hfind, e, he, hb, heq⟩ |
    ⟨_, _, heq⟩
  · have hidx : idx < acc.kp.key.length := findInList_some_lt hfind
    have hso := nextKeyState_slotOnly acc.kp idx (bitRead bm rc.1 rc.2) now hidx
    have hne : idx ≠ i := by
      intro hh
      have hcd := findInList_some_code hfind
      rw [hh, hent, hkcode] at hcd
      exact hrc2 (by exact_mod_cast hcd.symm)
    have hkp : (cellStep bm now acc rc).kp =
        (nextKeyState acc.kp idx (bitRead bm rc.1 rc.2) now).1 := by rw [heq]
    have hepq : (cellStep bm now acc rc).emptyPos = acc.emptyPos := by rw [heq]
    refine ⟨cellStep_wf bm now acc rc hwf, ?_, ?_, ?_⟩
    · rw [hkp]
      exact (hso.2.2.2.2.1 i (fun hh => hne hh.symm)).trans hent
    · intro j hj
      rw [hkp, slotOnly_kcode_all hso j]
      exact hfir j hj
    · rw [hepq]
      exact hep
  · have hel : e < acc.kp.key.length := hwf.2.2.2 e he
    have hei : e ≠ i := fun hh => hep (hh ▸ he)
    have hso := nextKeyState_slotOnly (allocKp acc e rc) e true now
      (by simpa [allocKp] using hel)
    have hentAlloc : (allocKp acc e rc).key.getD i defaultKey = k :=
      (allocKp_getD_ne acc e rc i (fun hh => hei hh.symm)).trans hent
    have hentNew :
        (nextKeyState (allocKp acc e rc) e true now).1.key.getD i defaultKey = k :=
      (hso.2.2.2.2.1 i (fun hh => hei hh.symm)).trans hentAlloc
    have hkp : (cellStep bm now acc rc).kp =
        (nextKeyState (allocKp acc e rc) e true now).1 := by rw [heq]
    have hepq : (cellStep bm now acc rc).emptyPos =
        firstEmpty (nextKeyState (allocKp acc e rc) e true now).1.key := by rw [heq]
    refine ⟨cellStep_wf bm now acc rc hwf, ?_, ?_, ?_⟩
    · rw [hkp]
      exact hentNew
    · intro j hj
      rw [hkp, slotOnly_kcode_all hso j]
      by_cases hje : j = e
      · rw [hje, allocKp_getD_self acc e rc hel]
        simp only [allocKey]
        intro hh
        exact hrc2 (by exact_mod_cast hh)
      · rw [allocKp_getD_ne acc e rc j hje]
        exact hfir j hj
    · rw [hepq]
      intro hh
      have hch := firstEmpty_some_char hh
      rw [hentNew] at hch
      exact hkchar hch
  · rw [heq]
    exact ⟨hwf, hent, hfir, hep⟩

theorem foldl_entryFixed (kp1 : Keypad) (i : Nat) (k : Key) (code : Nat)
    (bm : List Nat) (now : Nat) (L : List (Nat × Nat)) (acc : UpdAcc)
    (hkchar : k.kchar ≠ KEYPAD_NO_KEY) (hkcode : k.kcode = (code : Int))
    (hL : ∀ rc ∈ L, rc.1 * kp1.columns + rc.2 ≠ code)
    (h : EntryFixed kp1 i k code acc) :
    EntryFixed kp1 i k code (List.foldl (cellStep bm now) acc L) :=
  foldl_invariant _ _ _ _ h
    (fun b a ha hI => cellStep_entryFixed bm now b a hkchar hkcode (hL a ha) hI)

/-- C4: a tracked key in state RELEASED — a valid cell code, tracked first
in its slot, with a non-sentinel character — is moved to IDLE by the very
next `updateList`, whatever the raw bitmap says for its cell.  RELEASED is
thus observable for exactly one scan cycle before the slot becomes eligible
for cleanup and reuse. -/
theorem released_single_cycle (kp : Keypad) (bm : List Nat) (now : Nat)
    (i r c : Nat) (hi : i < kp.key.length) (hr : r < kp.rows) (hc : c < kp.columns)
    (hst : (kp.key.getD i defaultKey).kstate = RELEASED)
    (hcode : (kp.key.getD i defaultKey).kcode = ((r * kp.columns + c : Nat) : Int))
    (hchar : (kp.key.getD i defaultKey).kchar ≠ KEYPAD_NO_KEY)
    (hfirst : ∀ j, j < i →
      (kp.key.getD j defaultKey).kcode ≠ ((r * kp.columns + c : Nat) : Int)) :
    ((updateList kp bm now).1.key.getD i defaultKey).kstate = IDLE := by
  obtain ⟨A, B, hAB, hA, hB⟩ := cellList_split kp.rows kp.columns r c hr hc
  rw [updateList_fst, hAB, List.foldl_append, List.foldl_cons]
  have hnid : (kp.key.getD i defaultKey).kstate ≠ IDLE := by rw [hst]; decide
  have hentry0 : (cleanupKeys kp.key).getD i defaultKey = kp.key.getD i defaultKey := by
    rw [cleanup_getD]
    unfold cleanKey
    rw [if_neg hnid]
  have hinit : EntryFixed { kp with key := cleanupKeys kp.key } i
      (kp.key.getD i defaultKey) (r * kp.columns + c)
      { kp := { kp with key := cleanupKeys kp.key },
        emptyPos := firstEmpty (cleanupKeys kp.key), events := [] } := by
    refine ⟨⟨rfl, rfl, rfl, fun e he => firstEmpty_some_lt he⟩, hentry0, ?_, ?_⟩
    · intro j hj
      show ((cleanupKeys kp.key).getD j defaultKey).kcode ≠ ((r * kp.columns + c : Nat) : Int)
      rw [cleanup_getD]
      rcases cleanKey_kcode (kp.key.getD j defaultKey) with h1 | h1 <;> rw [h1]
      · exact hfirst j hj
      · intro hh
        omega
    · intro hh
      have hch := firstEmpty_some_char hh
      rw [hentry0] at hch
      exact hchar hch
  have hph1 := foldl_entryFixed { kp with key := cleanupKeys kp.key } i
    (kp.key.getD i defaultKey) (r * kp.columns + c) bm now A _ hchar hcode hA hinit
  obtain ⟨acc1, hacc1⟩ : ∃ x, List.foldl (cellStep bm now)
      { kp := { kp with key := cleanupKeys kp.key },
        emptyPos := firstEmpty (cleanupKeys kp.key), events := [] } A = x := ⟨_, rfl⟩
  rw [hacc1] at hph1 ⊢
  obtain ⟨hwf1, hent1, hfir1, hep1⟩ := hph1
  have hil : i < acc1.kp.key.length := by
    rw [hwf1.2.2.1]
    show i < (cleanupKeys kp.key).length
    rw [cleanup_length]
    exact hi
  have hcolA : acc1.kp.columns = kp.columns := hwf1.1
  have hfind_i : findInList acc1.kp.key ((r, c).1 * acc1.kp.columns + (r, c).2) = some i := by
    apply findIdx?_first _ _ _ defaultKey hil
    · simp only [decide_eq_true_eq]
      rw [hent1, hcode, hcolA]
    · intro j hj
      simp only [decide_eq_false_iff_not]
      rw [hcolA]
      exact hfir1 j hj
  rcases cellStep_eq bm now acc1 (r, c) with ⟨idx, hfind, heq⟩ | ⟨hfind, _, _, _, _⟩ |
    ⟨hfind, _, _⟩
  · rw [hfind_i] at hfind
    obtain rfl : i = idx := Option.some.inj hfind
    obtain ⟨acc2, hacc2⟩ : ∃ x, cellStep bm now acc1 (r, c) = x := ⟨_, rfl⟩
    rw [hacc2] at heq ⊢
    have hkp : acc2.kp = (nextKeyState acc1.kp i (bitRead bm (r, c).1 (r, c).2) now).1 := by
      rw [heq]
    have hepq : acc2.emptyPos = acc1.emptyPos := by rw [heq]
    have hso := nextKeyState_slotOnly acc1.kp i (bitRead bm (r, c).1 (r, c).2) now hil
    have hstate2 : (acc2.kp.key.getD i defaultKey).kstate = IDLE := by
      rw [hkp]
      apply nextKeyState_released_idle _ _ _ _ hil
      rw [hent1]
      exact hst
    have hchar2 : (acc2.kp.key.getD i defaultKey).kchar ≠ KEYPAD_NO_KEY := by
      rw [hkp, hso.2.2.2.2.2.1, hent1]
      exact hchar
    have hcode2 : (acc2.kp.key.getD i defaultKey).kcode = ((r * kp.columns + c : Nat) : Int) := by
      rw [hkp, hso.2.2.2.2.2.2, hent1]
      exact hcode
    have hfix2 : EntryFixed { kp with key := cleanupKeys kp.key } i
        (acc2.kp.key.getD i defaultKey) (r * kp.columns + c) acc2 := by
      refine ⟨?_, rfl, ?_, ?_⟩
      · rw [← hacc2]
        exact cellStep_wf bm now acc1 (r, c) hwf1
      · intro j hj
        rw [hkp, slotOnly_kcode_all hso j]
        exact hfir1 j hj
      · rw [hepq]
        exact hep1
    have hph2 := foldl_entryFixed { kp with key := cleanupKeys kp.key } i
      (acc2.kp.key.getD i defaultKey) (r * kp.columns + c) bm now B acc2
      hchar2 hcode2 hB hfix2
    rw [hph2.2.1]
    exact hstate2
  · rw [hfind_i] at hfind
    simp at hfind
  · rw [hfind_i] at hfind
    simp at hfind

/-- Witness for C4: on a 1×1 keypad whose only key has been pressed and
released (two polls), slot 0 sits in RELEASED; the next update moves it to
IDLE regardless of the bitmap — here with the key closed again. -/
theorem released_single_cycle_witness :
    (((updateList (mkKeypad 1 1 [Char.ofNat 49]) [1] 0).1 |> fun k1 =>
      (updateList k1 [0] 11).1).key.getD 0 defaultKey).kstate = RELEASED ∧
    ((updateList ((updateList (mkKeypad 1 1 [Char.ofNat 49]) [1] 0).1 |> fun k1 =>
      (updateList k1 [0] 11).1) [1] 22).1.key.getD 0 defaultKey).kstate = IDLE := by
  refine ⟨by decide, ?_⟩
  apply released_single_cycle _ [1] 22 0 0 0 (by decide) (by decide) (by decide)
    (by decide) (by decide) (by decide)
  intro j hj
  omega

/-! ## C2: the hold-timer anchor is shared, not per key -/

/-- C2 counterexample: on a 1×2 keypad, key 0 is pressed at t=0 (entering
PRESSED and anchoring the hold timer), key 1 is pressed at t=100 while key 0
stays closed, and at t=501 key 0 has been continuously closed for
501 > 500 = hold_interval ms since its own IDLE→PRESSED transition — yet it
is still PRESSED, not HOLD, because key 1's press re-anchored the single
shared `holdTimer` at t=100. -/
theorem hold_timer_not_per_key_counterexample :
    ((updateList (mkKeypad 1 2 [Char.ofNat 97, Char.ofNat 98]) [1] 0).1.key.getD 0
        defaultKey).kstate = PRESSED
  ∧ ((updateList (updateList (mkKeypad 1 2 [Char.ofNat 97, Char.ofNat 98]) [1] 0).1
        [3] 100).1.key.getD 0 defaultKey).kstate = PRESSED
  ∧ ((updateList (updateList (updateList (mkKeypad 1 2 [Char.ofNat 97, Char.ofNat 98])
        [1] 0).1 [3] 100).1 [3] 501).1.key.getD 0 defaultKey).kstate = PRESSED
  ∧ timeDiff 501 0 > (mkKeypad 1 2 [Char.ofNat 97, Char.ofNat 98]).holdTime := by decide

/-- C2 (amended): the hold anchor is the single shared `holdTimer` field: a
PRESSED key escalates to HOLD exactly when more than `holdTime` ms have
elapsed since the shared anchor — the most recent IDLE→PRESSED transition of
any tracked key — and any key entering PRESSED re-anchors that shared timer,
so the timing of one key's escalation is affected by other keys' presses. -/
theorem hold_timer_shared (kp : Keypad) (i j : Nat) (b bj : Bool) (now : Nat)
    (hi : i < kp.key.length) (_hj : j < kp.key.length) :
    (keyStateAt kp i = PRESSED →
        (keyStateAt (nextKeyState kp i b now).1 i = HOLD ↔
          timeDiff now kp.holdTimer > kp.holdTime))
  ∧ (keyStateAt kp j = IDLE → bj = true →
        (nextKeyState kp j bj now).1.holdTimer = now) := by
  constructor
  · intro hk
    rw [show keyStateAt kp i = (kp.key.getD i defaultKey).kstate from rfl] at hk
    simp only [keyStateAt, nextKeyState, transitionTo, KEYPAD_CLOSED, KEYPAD_OPEN, hk]
    split
    · cases b <;>
        simp_all [List.set_set, List.getD_eq_getElem?_getD, List.getElem?_set_self,
          List.length_set, hi]
    · cases b <;>
        simp_all [List.set_set, List.getD_eq_getElem?_getD, List.getElem?_set_self,
          List.length_set, hi]
  · intro hk hb
    rw [show keyStateAt kp j = (kp.key.getD j defaultKey).kstate from rfl] at hk
    subst hb
    simp only [nextKeyState, transitionTo, KEYPAD_CLOSED, KEYPAD_OPEN, hk, reduceIte]

/-- Witness for C2's amended theorem: the key pressed at t=0 escalates to
HOLD when fed closed at t=501 with the shared anchor still at 0. -/
theorem hold_timer_shared_witness :
    keyStateAt (nextKeyState
      (updateList (mkKeypad 1 2 [Char.ofNat 97, Char.ofNat 98]) [1] 0).1
      0 true 501).1 0 = HOLD := by
  have h := (hold_timer_shared
    ((updateList (mkKeypad 1 2 [Char.ofNat 97, Char.ofNat 98]) [1] 0).1)
    0 0 true true 501 (by decide) (by decide)).1 (by decide)
  exact h.mpr (by decide)

/-! ## C3: the poll gate uses a strict comparison -/

/-- C3 counterexample: a fresh keypad has startTime 0 and debounce 10; a
poll at t = 10 has elapsed time equal to the interval, which the claim says
must run the scan and return the update's changed flag (true here, as the
only key is closed) — but `getKeys` does nothing and returns false. -/
theorem getKeys_elapsed_equal_counterexample :
    timeDiff 10 (mkKeypad 1 1 [Char.ofNat 49]).startTime ≥
      (mkKeypad 1 1 [Char.ofNat 49]).debounceTime
  ∧ getKeys (mkKeypad 1 1 [Char.ofNat 49]) [1] 10 = (mkKeypad 1 1 [Char.ofNat 49], false, [])
  ∧ (updateList (mkKeypad 1 1 [Char.ofNat 49]) [1] 10).2.1 = true := by decide

/-- C3 (amended): `getKeys` runs the grid scan and registry update and
records the new timestamp exactly when the elapsed time since the last scan
STRICTLY exceeds the debounce interval; when elapsed ≤ interval (equality
included) it performs no scan — its result does not depend on the bitmap —
makes no state change and returns false. -/
theorem getKeys_gate (kp : Keypad) (bitMap other : List Nat) (now : Nat) :
    (timeDiff now kp.startTime > kp.debounceTime →
        (getKeys kp bitMap now).1 = { (updateList kp bitMap now).1 with startTime := now }
      ∧ (getKeys kp bitMap now).2.1 = (updateList kp bitMap now).2.1
      ∧ (getKeys kp bitMap now).2.2 = (updateList kp bitMap now).2.2)
  ∧ (timeDiff now kp.startTime ≤ kp.debounceTime →
        getKeys kp bitMap now = (kp, false, [])
      ∧ getKeys kp bitMap now = getKeys kp other now) := by
  constructor
  · intro h
    unfold getKeys
    rw [if_pos h]
    exact ⟨rfl, rfl, rfl⟩
  · intro h
    unfold getKeys
    rw [if_neg (Nat.not_lt.mpr h), if_neg (Nat.not_lt.mpr h)]
    exact ⟨rfl, rfl⟩

/-- Witness for C3's amended theorem: at t = 10 (elapsed = interval) the
poll is a no-op returning false; at t = 11 it returns the update's flag. -/
theorem getKeys_gate_witness :
    getKeys (mkKeypad 1 1 [Char.ofNat 49]) [1] 10 = (mkKeypad 1 1 [Char.ofNat 49], false, [])
  ∧ (getKeys (mkKeypad 1 1 [Char.ofNat 49]) [1] 11).2.1 =
      (updateList (mkKeypad 1 1 [Char.ofNat 49]) [1] 11).2.1 :=
  ⟨((getKeys_gate (mkKeypad 1 1 [Char.ofNat 49]) [1] [0] 10).2 (by decide)).1,
    ((getKeys_gate (mkKeypad 1 1 [Char.ofNat 49]) [1] [0] 11).1 (by decide)).2.1⟩

/-! ## C9: event dispatch on state transitions -/

/-- C9: whenever one `nextKeyState` step changes a key's reported state,
the char-only listener fires first and the (char, state) listener second —
each only when registered, an unregistered one simply contributing no call —
and `stateChanged` is raised; a step that leaves the state unchanged fires
no listener and leaves `stateChanged` false. -/
theorem transition_event_dispatch (kp : Keypad) (i : Nat) (b : Bool) (now : Nat)
    (hi : i < kp.key.length) :
    (keyStateAt (nextKeyState kp i b now).1 i ≠ keyStateAt kp i →
        (nextKeyState kp i b now).2 =
          (if kp.hasEventListener then [Event.charOnly (kp.key.getD i defaultKey).kchar]
           else [])
          ++ (if kp.hasStatedEventListener then
                [Event.charState (kp.key.getD i defaultKey).kchar
                  (keyStateAt (nextKeyState kp i b now).1 i)]
              else [])
        ∧ ((nextKeyState kp i b now).1.key.getD i defaultKey).stateChanged = true)
  ∧ (keyStateAt (nextKeyState kp i b now).1 i = keyStateAt kp i →
        (nextKeyState kp i b now).2 = []
        ∧ ((nextKeyState kp i b now).1.key.getD i defaultKey).stateChanged = false) := by
  cases hk : (kp.key.getD i defaultKey).kstate <;>
    cases b <;>
      simp only [keyStateAt, nextKeyState, transitionTo, KEYPAD_CLOSED, KEYPAD_OPEN, hk,
        reduceIte] <;>
      (try split) <;>
      simp [keyStateAt, List.set_set, List.getD_eq_getElem?_getD, List.getElem?_set_self,
        List.length_set, hi]

/-- Witness for C9: on a 1×1 keypad with both listeners registered whose key
was pressed at t=0, feeding it closed at t=501 escalates PRESSED→HOLD and
fires the char-only event then the stated event, in that order. -/
theorem transition_event_dispatch_witness :
    (nextKeyState (updateList (addStatedEventListener
      (addEventListener (mkKeypad 1 1 [Char.ofNat 49]) true) true) [1] 0).1 0 true 501).2 =
      [Event.charOnly (Char.ofNat 49), Event.charState (Char.ofNat 49) HOLD] := by
  have h := (transition_event_dispatch (updateList (addStatedEventListener
    (addEventListener (mkKeypad 1 1 [Char.ofNat 49]) true) true) [1] 0).1 0 true 501
    (by decide)).1 (by decide)
  rw [h.1]
  decide

/-! ## C10: the primary-key queries read slot 0 only -/

/-- C10: `getState` and `keyStateChanged` read exactly slot 0: two keypads
agreeing on slot 0 answer identically regardless of what any other slot
holds; and when slot 0 was IDLE, after the cleanup pass (which empties such
a slot) `getState` returns IDLE and `keyStateChanged` returns false. -/
theorem primary_queries_read_slot_zero (kp kq : Keypad)
    (h : kp.key.getD 0 defaultKey = kq.key.getD 0 defaultKey) :
    getState kp = getState kq
  ∧ keyStateChanged kp = keyStateChanged kq
  ∧ ((kp.key.getD 0 defaultKey).kstate = IDLE →
      getState { kp with key := cleanupKeys kp.key } = IDLE
      ∧ keyStateChanged { kp with key := cleanupKeys kp.key } = false) := by
  refine ⟨by unfold getState; rw [h], by unfold keyStateChanged; rw [h], ?_⟩
  intro h0
  constructor
  · show ((cleanupKeys kp.key).getD 0 defaultKey).kstate = IDLE
    rw [cleanup_getD]
    unfold cleanKey
    rw [if_pos h0]
    exact h0
  · show ((cleanupKeys kp.key).getD 0 defaultKey).stateChanged = false
    rw [cleanup_getD]
    unfold cleanKey
    rw [if_pos h0]

/-- Witness for C10: a fresh keypad (slot 0 empty and IDLE) reports IDLE
through `getState` after cleanup. -/
theorem primary_queries_read_slot_zero_witness :
    getState { mkKeypad 1 1 [Char.ofNat 49] with
      key := cleanupKeys (mkKeypad 1 1 [Char.ofNat 49]).key } = IDLE :=
  ((primary_queries_read_slot_zero (mkKeypad 1 1 [Char.ofNat 49])
    (mkKeypad 1 1 [Char.ofNat 49]) rfl).2.2 (by decide)).1

/-! ## C5: capacity bound -/

/-- The 3×4 test keymap used to exercise the capacity bound. -/
def elevenKeymap : List Char :=
  [Char.ofNat 49, Char.ofNat 50, Char.ofNat 51, Char.ofNat 65,
   Char.ofNat 52, Char.ofNat 53, Char.ofNat 54, Char.ofNat 66,
   Char.ofNat 55, Char.ofNat 56, Char.ofNat 57, Char.ofNat 67]

/-- C5: with the registry capacity of `KEYPAD_LIST_MAX = 10`, closing 11
distinct keys in one scan from an empty registry (3×4 grid, bitmap rows
`[15, 15, 7]` = codes 0–10 closed) tracks exactly 10 entries — the ten
lowest codes 0–9 — while the 11th press (code 10) is absent and no error
value exists anywhere; the update still reports a change.  In general, a
new press reconciled when the registry is saturated (`findInList` misses
and no free slot is recorded) leaves the whole accumulator — every existing
entry, the free-slot marker and the event trace — exactly unchanged. -/
theorem capacity_bound_excess_press_dropped :
    (((updateList (mkKeypad 3 4 elevenKeymap) [15, 15, 7] 0).1.key.filter
        (fun k => !(k.kchar = KEYPAD_NO_KEY))).length = KEYPAD_LIST_MAX
      ∧ ((updateList (mkKeypad 3 4 elevenKeymap) [15, 15, 7] 0).1.key.map
          (fun k => k.kcode)) = [0, 1, 2, 3, 4, 5, 6, 7, 8, 9]
      ∧ findInList (updateList (mkKeypad 3 4 elevenKeymap) [15, 15, 7] 0).1.key 10 = none
      ∧ (updateList (mkKeypad 3 4 elevenKeymap) [15, 15, 7] 0).2.1 = true)
  ∧ (∀ (bm : List Nat) (now : Nat) (acc : UpdAcc) (rc : Nat × Nat),
      findInList acc.kp.key (rc.1 * acc.kp.columns + rc.2) = none →
      acc.emptyPos = none →
      cellStep bm now acc rc = acc) := by
  constructor
  · exact ⟨by decide, by decide, by decide, by decide⟩
  · intro bm now acc rc hfind hep
    rcases cellStep_eq bm now acc rc with ⟨idx, hfind2, _⟩ | ⟨_, e, he, _, _⟩ | ⟨_, _, heq⟩
    · rw [hfind] at hfind2
      cases hfind2
    · rw [hep] at he
      cases he
    · exact heq

/-- Witness for C5's saturation clause: reconciling the untracked cell
(2, 3) (code 11) against the saturated registry produced by the 11-press
scan leaves the accumulator unchanged. -/
theorem capacity_bound_excess_press_dropped_witness :
    cellStep [15, 15, 15] 0
      { kp := (updateList (mkKeypad 3 4 elevenKeymap) [15, 15, 7] 0).1,
        emptyPos := none, events := [] } (2, 3) =
      { kp := (updateList (mkKeypad 3 4 elevenKeymap) [15, 15, 7] 0).1,
        emptyPos := none, events := [] } :=
  capacity_bound_excess_press_dropped.2 [15, 15, 15] 0
    { kp := (updateList (mkKeypad 3 4 elevenKeymap) [15, 15, 7] 0).1,
      emptyPos := none, events := [] } (2, 3) (by decide) rfl

/-! ## C6: row-major tie-break -/

theorem findIdx?_eq_none_of_getD {α : Type} (p : α → Bool) (l : List α) (d : α)
    (h : ∀ j, j < l.length → p (l.getD j d) = false) : l.findIdx? p = none := by
  rcases hF : l.findIdx? p with _ | idx
  · rfl
  · obtain ⟨h1, h2, _⟩ := findIdx?_some_spec p l idx d hF
    rw [h idx h1] at h2
    cases h2

/-- Splitting the row-major cell list at one cell separates the cells with
strictly smaller codes from those with strictly larger ones. -/
theorem cellList_split_lt (R C r c : Nat) (hr : r < R) (hc : c < C) :
    ∃ A B, cellList R C = A ++ (r, c) :: B
      ∧ (∀ rc ∈ A, rc.1 * C + rc.2 < r * C + c)
      ∧ (∀ rc ∈ B, r * C + c < rc.1 * C + rc.2) := by
  have hmem : (r, c) ∈ cellList R C := mem_cellList.mpr ⟨hr, hc⟩
  obtain ⟨A, B, hAB⟩ := List.append_of_mem hmem
  have hpw : ((cellList R C).map (fun rc => rc.1 * C + rc.2)).Pairwise (· < ·) := by
    rw [cellList_map_code]
    exact List.pairwise_lt_range (R * C)
  rw [hAB, List.map_append, List.map_cons, List.pairwise_append] at hpw
  refine ⟨A, B, hAB, ?_, ?_⟩
  · intro rc hrc
    exact hpw.2.2 _ (List.mem_map_of_mem _ hrc) _ (List.mem_cons_self _ _)
  · intro rc hrc
    exact (List.pairwise_cons.mp hpw.2.1).1 _ (List.mem_map_of_mem _ hrc)

/-- Invariant of the reconciliation loop while every closed cell it meets is
already tracked: no slot's character or code changes and the free-slot
marker stays put. -/
def KeysFrozen (kp1 : Keypad) (e : Nat) (acc : UpdAcc) : Prop :=
  AccWf kp1 acc
  ∧ (∀ j, (acc.kp.key.getD j defaultKey).kcode = (kp1.key.getD j defaultKey).kcode)
  ∧ (∀ j, (acc.kp.key.getD j defaultKey).kchar = (kp1.key.getD j defaultKey).kchar)
  ∧ acc.emptyPos = some e

theorem cellStep_keysFrozen {kp1 : Keypad} {e : Nat} (bm : List Nat) (now : Nat)
    (acc : UpdAcc) (rc : Nat × Nat)
    (htracked : bitRead bm rc.1 rc.2 = true →
      ∃ j, j < kp1.key.length ∧
        (kp1.key.getD j defaultKey).kcode = ((rc.1 * kp1.columns + rc.2 : Nat) : Int))
    (h : KeysFrozen kp1 e acc) : KeysFrozen kp1 e (cellStep bm now acc rc) := by
  obtain ⟨hwf, hcodes, hchars, hep⟩ := h
  rcases cellStep_eq bm now acc rc with ⟨idx, hfind, heq⟩ | ⟨hfind, e', he', hb, heq⟩ |
    ⟨_, _, heq⟩
  · have hso := nextKeyState_slotOnly acc.kp idx (bitRead bm rc.1 rc.2) now
      (findInList_some_lt hfind)
    have hkp : (cellStep bm now acc rc).kp =
        (nextKeyState acc.kp idx (bitRead bm rc.1 rc.2) now).1 := by rw [heq]
    have hepq : (cellStep bm now acc rc).emptyPos = acc.emptyPos := by rw [heq]
    refine ⟨cellStep_wf bm now acc rc hwf, ?_, ?_, ?_⟩
    · intro j
      rw [hkp, slotOnly_kcode_all hso j]
      exact hcodes j
    · intro j
      rw [hkp, slotOnly_kchar_all hso j]
      exact hchars j
    · rw [hepq]
      exact hep
  · obtain ⟨j, hj, hcd⟩ := htracked hb
    have hjl : j < acc.kp.key.length := by rw [hwf.2.2.1]; exact hj
    have hcd2 : (acc.kp.key.getD j defaultKey).kcode =
        ((rc.1 * acc.kp.columns + rc.2 : Nat) : Int) := by
      rw [hcodes j, hwf.1]
      exact hcd
    exact absurd hcd2 (findInList_none hfind j hjl)
  · rw [heq]
    exact ⟨hwf, hcodes, hchars, hep⟩

/-- Invariant of the reconciliation loop once the registry is saturated:
no allocation can happen any more, so slot `e` keeps the code it won and the
competing code stays untracked. -/
def Saturated (kp1 : Keypad) (e code1 code2 : Nat) (acc : UpdAcc) : Prop :=
  AccWf kp1 acc
  ∧ acc.emptyPos = none
  ∧ (acc.kp.key.getD e defaultKey).kcode = (code1 : Int)
  ∧ (∀ j, (acc.kp.key.getD j defaultKey).kcode ≠ (code2 : Int))

theorem cellStep_saturated {kp1 : Keypad} {e code1 code2 : Nat} (bm : List Nat) (now : Nat)
    (acc : UpdAcc) (rc : Nat × Nat)
    (h : Saturated kp1 e code1 code2 acc) :
    Saturated kp1 e code1 code2 (cellStep bm now acc rc) := by
  obtain ⟨hwf, hep, hcode, hnc⟩ := h
  rcases cellStep_eq bm now acc rc with ⟨idx, hfind, heq⟩ | ⟨hfind, e', he', hb, heq⟩ |
    ⟨_, _, heq⟩
  · have hso := nextKeyState_slotOnly acc.kp idx (bitRead bm rc.1 rc.2) now
      (findInList_some_lt hfind)
    have hkp : (cellStep bm now acc rc).kp =
        (nextKeyState acc.kp idx (bitRead bm rc.1 rc.2) now).1 := by rw [heq]
    have hepq : (cellStep bm now acc rc).emptyPos = acc.emptyPos := by rw [heq]
    refine ⟨cellStep_wf bm now acc rc hwf, ?_, ?_, ?_⟩
    · rw [hepq]
      exact hep
    · rw [hkp, slotOnly_kcode_all hso e]
      exact hcode
    · intro j
      rw [hkp, slotOnly_kcode_all hso j]
      exact hnc j
  · rw [hep] at he'
    cases he'
  · rw [heq]
    exact ⟨hwf, hep, hcode, hnc⟩

/-- C6: row-major tie-break.  When, after the cleanup pass, the registry has
exactly one free slot `e` (every other slot is occupied), two closed cells
with untracked codes compete, every closed cell with a code lower than the
first competitor's is already tracked, and the first competitor's mapped
character is not the empty sentinel, then the update allocates slot `e` to
the competitor with the LOWER linear code (`r1*columns+c1`) and the
higher-coded competitor (`r2*columns+c2`) ends the update untracked. -/
theorem row_major_tie_break (kp : Keypad) (bm : List Nat) (now : Nat)
    (r1 c1 r2 c2 e : Nat)
    (hr1 : r1 < kp.rows) (hc1 : c1 < kp.columns)
    (_hr2 : r2 < kp.rows) (_hc2 : c2 < kp.columns)
    (hlt : r1 * kp.columns + c1 < r2 * kp.columns + c2)
    (hb1 : bitRead bm r1 c1 = true) (_hb2 : bitRead bm r2 c2 = true)
    (hun1 : ∀ j, j < kp.key.length →
      ((cleanupKeys kp.key).getD j defaultKey).kcode ≠ ((r1 * kp.columns + c1 : Nat) : Int))
    (hun2 : ∀ j, j < kp.key.length →
      ((cleanupKeys kp.key).getD j defaultKey).kcode ≠ ((r2 * kp.columns + c2 : Nat) : Int))
    (hfree : firstEmpty (cleanupKeys kp.key) = some e)
    (honly : ∀ m, m < kp.key.length → m ≠ e →
      ((cleanupKeys kp.key).getD m defaultKey).kchar ≠ KEYPAD_NO_KEY)
    (hlowest : ∀ rc : Nat × Nat, rc ∈ cellList kp.rows kp.columns →
      rc.1 * kp.columns + rc.2 < r1 * kp.columns + c1 →
      bitRead bm rc.1 rc.2 = true →
      ∃ j, j < kp.key.length ∧
        ((cleanupKeys kp.key).getD j defaultKey).kcode =
          ((rc.1 * kp.columns + rc.2 : Nat) : Int))
    (hchar1 : kp.keymap.getD (r1 * kp.columns + c1) KEYPAD_NO_KEY ≠ KEYPAD_NO_KEY) :
    ((updateList kp bm now).1.key.getD e defaultKey).kcode =
      ((r1 * kp.columns + c1 : Nat) : Int)
  ∧ ∀ j, ((updateList kp bm now).1.key.getD j defaultKey).kcode ≠
      ((r2 * kp.columns + c2 : Nat) : Int) := by
  obtain ⟨A, B, hAB, hA, hB⟩ := cellList_split_lt kp.rows kp.columns r1 c1 hr1 hc1
  rw [updateList_fst, hAB, List.foldl_append, List.foldl_cons]
  have hlen1 : (cleanupKeys kp.key).length = kp.key.length := cleanup_length kp.key
  have hfrozen := foldl_invariant
    (KeysFrozen { kp with key := cleanupKeys kp.key } e) (cellStep bm now) A
    { kp := { kp with key := cleanupKeys kp.key },
      emptyPos := firstEmpty (cleanupKeys kp.key), events := [] }
    ⟨⟨rfl, rfl, rfl, fun x hx => firstEmpty_some_lt hx⟩, fun _ => rfl, fun _ => rfl, hfree⟩
    (fun b a ha hI => cellStep_keysFrozen bm now b a (fun hbtn => by
      have hmem : a ∈ cellList kp.rows kp.columns := by
        rw [hAB]
        exact List.mem_append.mpr (Or.inl ha)
      obtain ⟨j, hj, hcd⟩ := hlowest a hmem (hA a ha) hbtn
      exact ⟨j, by rw [show ({ kp with key := cleanupKeys kp.key } : Keypad).key
          = cleanupKeys kp.key from rfl, hlen1]; exact hj, hcd⟩) hI)
  obtain ⟨acc1, hacc1⟩ : ∃ x, List.foldl (cellStep bm now)
      { kp := { kp with key := cleanupKeys kp.key },
        emptyPos := firstEmpty (cleanupKeys kp.key), events := [] } A = x := ⟨_, rfl⟩
  rw [hacc1] at hfrozen ⊢
  obtain ⟨hwf1, hcodes1, hchars1, hep1⟩ := hfrozen
  have hlenacc : acc1.kp.key.length = kp.key.length := by
    rw [hwf1.2.2.1]
    exact hlen1
  have hcolA : acc1.kp.columns = kp.columns := hwf1.1
  have hfind1 : findInList acc1.kp.key ((r1, c1).1 * acc1.kp.columns + (r1, c1).2)
      = none := by
    apply findIdx?_eq_none_of_getD _ _ defaultKey
    intro j hj
    simp only [decide_eq_false_iff_not]
    rw [hcodes1 j, hcolA]
    exact hun1 j (hlenacc ▸ hj)
  rcases cellStep_eq bm now acc1 (r1, c1) with ⟨idx, hfind2, _⟩ |
    ⟨hfind2, e', he', hbb, heq⟩ | ⟨hfind2, hdis, heq⟩
  · rw [hfind1] at hfind2
    cases hfind2
  · rw [hep1] at he'
    obtain rfl : e = e' := Option.some.inj he'
    obtain ⟨acc2, hacc2⟩ : ∃ x, cellStep bm now acc1 (r1, c1) = x := ⟨_, rfl⟩
    rw [hacc2] at heq ⊢
    have hel : e < acc1.kp.key.length := by
      rw [hlenacc, ← hlen1]
      exact firstEmpty_some_lt hfree
    have hso := nextKeyState_slotOnly (allocKp acc1 e (r1, c1)) e true now
      (by simpa [allocKp] using hel)
    have hkp2 : acc2.kp = (nextKeyState (allocKp acc1 e (r1, c1)) e true now).1 := by
      rw [heq]
    have hep2 : acc2.emptyPos =
        firstEmpty (nextKeyState (allocKp acc1 e (r1, c1)) e true now).1.key := by
      rw [heq]
    have hlenNK : (nextKeyState (allocKp acc1 e (r1, c1)) e true now).1.key.length
        = acc1.kp.key.length := by
      rw [hso.2.2.2.1]
      show (acc1.kp.key.set e (allocKey acc1 e (r1, c1))).length = _
      rw [List.length_set]
    have hlen2 : acc2.kp.key.length = kp.key.length := by
      rw [hkp2, hlenNK]
      exact hlenacc
    have hcode_e : (acc2.kp.key.getD e defaultKey).kcode =
        ((r1 * kp.columns + c1 : Nat) : Int) := by
      rw [hkp2, hso.2.2.2.2.2.2, allocKp_getD_self acc1 e (r1, c1) hel]
      show ((((r1, c1).1 * acc1.kp.columns + (r1, c1).2 : Nat)) : Int) = _
      rw [hcolA]
    have hchar_all : ∀ m, m < acc1.kp.key.length →
        ((nextKeyState (allocKp acc1 e (r1, c1)) e true now).1.key.getD m
          defaultKey).kchar ≠ KEYPAD_NO_KEY := by
      intro m hm
      by_cases hme : m = e
      · rw [hme, hso.2.2.2.2.2.1, allocKp_getD_self acc1 e (r1, c1) hel]
        show acc1.kp.keymap.getD ((r1, c1).1 * acc1.kp.columns + (r1, c1).2)
          KEYPAD_NO_KEY ≠ KEYPAD_NO_KEY
        rw [hcolA]
        rw [show acc1.kp.keymap = kp.keymap from hwf1.2.1]
        exact hchar1
      · rw [hso.2.2.2.2.1 m hme, allocKp_getD_ne acc1 e (r1, c1) m hme, hchars1 m]
        exact honly m (hlenacc ▸ hm) hme
    have hsat0 : Saturated { kp with key := cleanupKeys kp.key } e
        (r1 * kp.columns + c1) (r2 * kp.columns + c2) acc2 := by
      refine ⟨?_, ?_, hcode_e, ?_⟩
      · rw [← hacc2]
        exact cellStep_wf bm now acc1 (r1, c1) hwf1
      · rw [hep2]
        apply findIdx?_eq_none_of_getD _ _ defaultKey
        intro j hj
        simp only [decide_eq_false_iff_not]
        exact hchar_all j (hlenNK ▸ hj)
      · intro j
        by_cases hjl : j < acc2.kp.key.length
        · by_cases hje : j = e
          · rw [hje, hcode_e]
            intro hh
            exact absurd (by exact_mod_cast hh) (Nat.ne_of_lt hlt)
          · rw [hkp2, hso.2.2.2.2.1 j hje, allocKp_getD_ne acc1 e (r1, c1) j hje,
              hcodes1 j]
            exact hun2 j (hlen2 ▸ hjl)
        · rw [getD_of_length_le _ _ _ (Nat.le_of_not_lt hjl)]
          intro hh
          rw [show (defaultKey).kcode = -1 from rfl] at hh
          omega
    have hsatB := foldl_invariant
      (Saturated { kp with key := cleanupKeys kp.key } e
        (r1 * kp.columns + c1) (r2 * kp.columns + c2))
      (cellStep bm now) B acc2 hsat0
      (fun b a _ hI => cellStep_saturated bm now b a hI)
    exact ⟨hsatB.2.2.1, hsatB.2.2.2⟩
  · rcases hdis with hdd | hdd
    · rw [hep1] at hdd
      cases hdd
    · have hx : bitRead bm r1 c1 = false := hdd
      rw [hb1] at hx
      cases hx

/-- Registry with nine tracked keys (codes 2–10 pressed at t=0 on the 3×4
keypad) leaving exactly one free slot, slot 9. -/
def nineTracked : Keypad := (updateList (mkKeypad 3 4 elevenKeymap) [12, 15, 7] 0).1

/-- Witness for C6: with one free slot left and the new presses at codes 0
and 1 competing for it in the same scan, the slot goes to code 0 and code 1
stays untracked. -/
theorem row_major_tie_break_witness :
    ((updateList nineTracked [15, 15, 7] 1).1.key.getD 9 defaultKey).kcode =
      ((0 * nineTracked.columns + 0 : Nat) : Int)
  ∧ ((updateList nineTracked [15, 15, 7] 1).1.key.getD 9 defaultKey).kcode ≠
      ((0 * nineTracked.columns + 1 : Nat) : Int) := by
  have h := row_major_tie_break nineTracked [15, 15, 7] 1 0 0 0 1 9
    (by decide) (by decide) (by decide) (by decide) (by decide) (by decide) (by decide)
    (by decide) (by decide) (by decide) (by decide) (by decide) (by decide)
  exact ⟨h.1, h.2 9⟩
